import Mathlib

/-!
Verification of the mortgage amortization schedule generator
(`calculateSchedule` in `src/app/page.tsx`).

The generator is a pure function over JavaScript numbers.  We embed it
over `ℚ`: every arithmetic operation performed by the source
(`+`, `-`, `*`, `/`, `min`, `max`, comparisons) is exact rational
arithmetic here.  Non-finite values (NaN, Infinity) are not
representable in `ℚ`; the source's `Number.isFinite(overrideValue)`
guard is therefore always satisfied for a present override, and the
override map is embedded as `Nat → Option ℚ` where `none` models an
absent (`undefined`) entry.

The source's `while` loop runs with `monthIndex` starting at 1 and the
guard `... && monthIndex < 1200`, so it performs at most 1199
iterations.  We embed it as structural recursion on a fuel argument
initialized to 1200; the fuel is `1201 - monthIndex` throughout, so the
zero-fuel base case is never reached before the loop guard fails.
-/

/-- A calendar month, modelling a JS `Date` pinned to day 1 of a month
(as produced by `parseMonthInput`). `month` is 1-based (1 = January). -/
structure YearMonth where
  year : Int
  month : Int
deriving DecidableEq, Repr

/-- `addMonths` from the source: JS `Date.setMonth` normalization for a
day-1 date, i.e. flooring carry of months into years. -/
def addMonths (d : YearMonth) (count : Int) : YearMonth :=
  let total := d.year * 12 + (d.month - 1) + count
  ⟨total.fdiv 12, total.emod 12 + 1⟩

/-- One ledger row, mirroring the `ScheduleRow` type of the source. -/
structure ScheduleRow where
  monthIndex : Nat
  dueDate : YearMonth
  plannedPayment : ℚ
  plannedPrincipal : ℚ
  plannedInterest : ℚ
  actualPayment : ℚ
  interestPaid : ℚ
  principalPaid : ℚ
  extraPayment : ℚ
  shortfall : ℚ
  balanceAfter : ℚ
deriving DecidableEq, Repr

/-- `epsilon = 1e-2` from the source. -/
def eps : ℚ := 1 / 100

/-- The body of one iteration of the source's `while` loop: all the
per-month quantities computed from the balance entering the month.
`overrides monthIndex = some v` models a present, finite override. -/
def mkRow (termMonths monthlyRate : ℚ) (overrides : Nat → Option ℚ)
    (balance : ℚ) (monthIndex : Nat) (dueDate : YearMonth) : ScheduleRow :=
  let monthsRemaining := max (termMonths - (monthIndex : ℚ) + 1) 1
  let plannedPrincipal := balance / monthsRemaining
  let plannedInterest := balance * monthlyRate
  let plannedPayment := plannedPrincipal + plannedInterest
  let actualPayment := (overrides monthIndex).getD plannedPayment
  let interestPaid := min actualPayment plannedInterest
  let principalPaid0 := max (actualPayment - interestPaid) 0
  let principalPaid := if principalPaid0 > balance then balance else principalPaid0
  let balanceAfter := max (balance - principalPaid) 0
  let extraPayment := max (actualPayment - plannedPayment) 0
  let shortfall := max (plannedPayment - actualPayment) 0
  { monthIndex := monthIndex
    dueDate := dueDate
    plannedPayment := plannedPayment
    plannedPrincipal := min plannedPrincipal balance
    plannedInterest := plannedInterest
    actualPayment := actualPayment
    interestPaid := interestPaid
    principalPaid := principalPaid
    extraPayment := extraPayment
    shortfall := shortfall
    balanceAfter := balanceAfter }

/-- The source's `while` loop.  The loop guard
`(monthIndex <= termMonths || balance > epsilon) && monthIndex < 1200`
and the post-append break `if (balance <= epsilon) break` are embedded
verbatim; the fuel only makes the recursion structural and never cuts
the loop short when started at 1200 with `monthIndex = 1`. -/
def go (termMonths monthlyRate : ℚ) (overrides : Nat → Option ℚ) :
    Nat → ℚ → Nat → YearMonth → List ScheduleRow
  | 0, _, _, _ => []
  | fuel + 1, balance, monthIndex, dueDate =>
    if ((monthIndex : ℚ) ≤ termMonths ∨ balance > eps) ∧ monthIndex < 1200 then
      let row := mkRow termMonths monthlyRate overrides balance monthIndex dueDate
      if row.balanceAfter ≤ eps then [row]
      else row :: go termMonths monthlyRate overrides fuel row.balanceAfter
        (monthIndex + 1) (addMonths dueDate 1)
    else []

/-- `calculateSchedule` from the source.  `startMonth` is the parsed
first due date (the well-formed path of `parseMonthInput`); the monthly
rate is `annualRate / 100 / 12` as in the source. -/
def calculateSchedule (principal annualRate termMonths : ℚ)
    (startMonth : YearMonth) (overrides : Nat → Option ℚ) : List ScheduleRow :=
  if principal ≤ 0 ∨ termMonths ≤ 0 then []
  else go termMonths (annualRate / 100 / 12) overrides 1200 principal 1 startMonth

/-! ### Basic unfolding and step lemmas -/

theorem go_eq (t r : ℚ) (ov : Nat → Option ℚ) (fuel : Nat) (b : ℚ) (i : Nat)
    (d : YearMonth) :
    go t r ov fuel b i d =
      if fuel = 0 then []
      else if ((i : ℚ) ≤ t ∨ b > eps) ∧ i < 1200 then
        let row := mkRow t r ov b i d
        if row.balanceAfter ≤ eps then [row]
        else row :: go t r ov (fuel - 1) row.balanceAfter (i + 1) (addMonths d 1)
      else [] := by
  cases fuel <;> simp [go]

theorem mkRow_balanceAfter_def (t r : ℚ) (ov : Nat → Option ℚ) (b : ℚ) (i : Nat)
    (d : YearMonth) (hb : 0 ≤ b) :
    (mkRow t r ov b i d).principalPaid ≤ b ∧
      0 ≤ (mkRow t r ov b i d).principalPaid ∧
      (mkRow t r ov b i d).balanceAfter = b - (mkRow t r ov b i d).principalPaid := by
  simp only [mkRow]
  set a := (ov i).getD (b / max (t - (i : ℚ) + 1) 1 + b * r) with ha
  set ip := min a (b * r) with hip
  set pp0 := max (a - ip) 0 with hpp0
  have h0 : 0 ≤ pp0 := le_max_right _ _
  by_cases hc : pp0 > b
  · simp only [if_pos hc]
    refine ⟨le_refl b, hb, ?_⟩
    simp [sub_self]
  · simp only [if_neg hc]
    push_neg at hc
    refine ⟨hc, h0, ?_⟩
    rw [max_eq_left (by linarith)]

theorem mkRow_balanceAfter_nonneg (t r : ℚ) (ov : Nat → Option ℚ) (b : ℚ) (i : Nat)
    (d : YearMonth) : 0 ≤ (mkRow t r ov b i d).balanceAfter := by
  simp only [mkRow]
  exact le_max_right _ _

theorem mkRow_balanceAfter_le (t r : ℚ) (ov : Nat → Option ℚ) (b : ℚ) (i : Nat)
    (d : YearMonth) (hb : 0 ≤ b) : (mkRow t r ov b i d).balanceAfter ≤ b := by
  obtain ⟨h1, h2, h3⟩ := mkRow_balanceAfter_def t r ov b i d hb
  linarith

theorem mkRow_monthIndex (t r : ℚ) (ov : Nat → Option ℚ) (b : ℚ) (i : Nat)
    (d : YearMonth) : (mkRow t r ov b i d).monthIndex = i := rfl

theorem mkRow_actualPayment (t r : ℚ) (ov : Nat → Option ℚ) (b : ℚ) (i : Nat)
    (d : YearMonth) :
    (mkRow t r ov b i d).actualPayment =
      (ov i).getD (mkRow t r ov b i d).plannedPayment := rfl

theorem mkRow_extra_shortfall (t r : ℚ) (ov : Nat → Option ℚ) (b : ℚ) (i : Nat)
    (d : YearMonth) :
    ¬(0 < (mkRow t r ov b i d).extraPayment ∧ 0 < (mkRow t r ov b i d).shortfall) := by
  simp only [mkRow]
  rintro ⟨h1, h2⟩
  rw [lt_max_iff] at h1 h2
  rcases h1 with h1 | h1
  · rcases h2 with h2 | h2 <;> linarith
  · exact absurd h1 (lt_irrefl 0)

/-! ### Loop invariants -/

theorem go_mem_balance (t r : ℚ) (ov : Nat → Option ℚ) (fuel : Nat) :
    ∀ (b : ℚ) (i : Nat) (d : YearMonth), 0 ≤ b →
      ∀ row ∈ go t r ov fuel b i d,
        0 ≤ row.balanceAfter ∧ row.balanceAfter ≤ b := by
  induction fuel with
  | zero => intro b i d hb row hrow; simp [go] at hrow
  | succ n ih =>
    intro b i d hb row hrow
    simp only [go] at hrow
    split at hrow
    · split at hrow
      · rw [List.mem_singleton] at hrow
        subst hrow
        exact ⟨mkRow_balanceAfter_nonneg t r ov b i d,
          mkRow_balanceAfter_le t r ov b i d hb⟩
      · rw [List.mem_cons] at hrow
        rcases hrow with hrow | hrow
        · subst hrow
          exact ⟨mkRow_balanceAfter_nonneg t r ov b i d,
            mkRow_balanceAfter_le t r ov b i d hb⟩
        · have h0 := mkRow_balanceAfter_nonneg t r ov b i d
          obtain ⟨h1, h2⟩ := ih _ _ _ h0 row hrow
          exact ⟨h1, h2.trans (mkRow_balanceAfter_le t r ov b i d hb)⟩
    · simp at hrow

theorem go_pairwise (t r : ℚ) (ov : Nat → Option ℚ) (fuel : Nat) :
    ∀ (b : ℚ) (i : Nat) (d : YearMonth), 0 ≤ b →
      (go t r ov fuel b i d).Pairwise
        (fun x y => y.balanceAfter ≤ x.balanceAfter) := by
  induction fuel with
  | zero => intro b i d hb; simp [go]
  | succ n ih =>
    intro b i d hb
    simp only [go]
    split
    · split
      · simp
      · rw [List.pairwise_cons]
        have h0 := mkRow_balanceAfter_nonneg t r ov b i d
        refine ⟨fun y hy => ?_, ih _ _ _ h0⟩
        exact (go_mem_balance t r ov n _ _ _ h0 y hy).2
    · simp

theorem go_length (t r : ℚ) (ov : Nat → Option ℚ) (fuel : Nat) :
    ∀ (b : ℚ) (i : Nat) (d : YearMonth),
      (go t r ov fuel b i d).length ≤ 1200 - i := by
  induction fuel with
  | zero => intro b i d; simp [go]
  | succ n ih =>
    intro b i d
    simp only [go]
    split
    · rename_i hcond
      split
      · simpa using by omega
      · rw [List.length_cons]
        have := ih (mkRow t r ov b i d).balanceAfter (i + 1) (addMonths d 1)
        omega
    · simp

theorem go_mem_invariant (t r : ℚ) (ov : Nat → Option ℚ)
    (Q : ScheduleRow → Prop)
    (hQ : ∀ (b : ℚ) (i : Nat) (d : YearMonth), 0 ≤ b → Q (mkRow t r ov b i d))
    (fuel : Nat) :
    ∀ (b : ℚ) (i : Nat) (d : YearMonth), 0 ≤ b →
      ∀ row ∈ go t r ov fuel b i d, Q row := by
  induction fuel with
  | zero => intro b i d hb row hrow; simp [go] at hrow
  | succ n ih =>
    intro b i d hb row hrow
    simp only [go] at hrow
    split at hrow
    · split at hrow
      · rw [List.mem_singleton] at hrow
        subst hrow
        exact hQ b i d hb
      · rw [List.mem_cons] at hrow
        rcases hrow with hrow | hrow
        · subst hrow
          exact hQ b i d hb
        · exact ih _ _ _ (mkRow_balanceAfter_nonneg t r ov b i d) row hrow
    · simp at hrow

theorem go_adjacent (t r : ℚ) (ov : Nat → Option ℚ) (P : ℚ → ScheduleRow → Prop)
    (hP : ∀ (b : ℚ) (i : Nat) (d : YearMonth), 0 ≤ b → P b (mkRow t r ov b i d))
    (fuel : Nat) :
    ∀ (b : ℚ) (i : Nat) (d : YearMonth), 0 ≤ b →
      (∀ row, (go t r ov fuel b i d)[0]? = some row → P b row) ∧
      (∀ (j : Nat) (prev row : ScheduleRow),
        (go t r ov fuel b i d)[j]? = some prev →
        (go t r ov fuel b i d)[j + 1]? = some row →
        P prev.balanceAfter row) := by
  induction fuel with
  | zero =>
    intro b i d hb
    constructor
    · intro row h; simp [go] at h
    · intro j prev row h; simp [go] at h
  | succ n ih =>
    intro b i d hb
    simp only [go]
    split
    · split
      · constructor
        · intro row h
          rw [List.getElem?_cons_zero, Option.some_inj] at h
          subst h
          exact hP b i d hb
        · intro j prev row hprev hrow
          rcases j with _ | k
          · rw [List.getElem?_cons_succ, List.getElem?_nil] at hrow
            exact absurd hrow (by simp)
          · rw [List.getElem?_cons_succ, List.getElem?_nil] at hprev
            exact absurd hprev (by simp)
      · have h0 := mkRow_balanceAfter_nonneg t r ov b i d
        constructor
        · intro row h
          rw [List.getElem?_cons_zero, Option.some_inj] at h
          subst h
          exact hP b i d hb
        · intro j prev row hprev hrow
          rcases j with _ | k
          · rw [List.getElem?_cons_zero, Option.some_inj] at hprev
            rw [List.getElem?_cons_succ] at hrow
            subst hprev
            exact (ih _ (i + 1) (addMonths d 1) h0).1 row hrow
          · rw [List.getElem?_cons_succ] at hprev
            rw [List.getElem?_cons_succ] at hrow
            exact (ih _ (i + 1) (addMonths d 1) h0).2 k prev row hprev hrow
    · constructor
      · intro row h; simp at h
      · intro j prev row h; simp at h

theorem go_not_last (t r : ℚ) (ov : Nat → Option ℚ) (fuel : Nat) :
    ∀ (b : ℚ) (i : Nat) (d : YearMonth) (j : Nat) (row : ScheduleRow),
      j + 1 < (go t r ov fuel b i d).length →
      (go t r ov fuel b i d)[j]? = some row →
      eps < row.balanceAfter := by
  induction fuel with
  | zero => intro b i d j row hlen _; simp [go] at hlen
  | succ n ih =>
    intro b i d j row
    simp only [go]
    split
    · split
      · intro hlen hget
        rw [List.length_singleton] at hlen
        omega
      · rename_i hbreak
        intro hlen hget
        rw [List.length_cons] at hlen
        rcases j with _ | k
        · rw [List.getElem?_cons_zero, Option.some_inj] at hget
          subst hget
          exact lt_of_not_le hbreak
        · rw [List.getElem?_cons_succ] at hget
          exact ih _ (i + 1) (addMonths d 1) k row (by omega) hget
    · intro hlen hget
      simp at hlen

/-! ### Payoff with no overrides -/

theorem mkRow_final_month (r : ℚ) (n : Nat) (b : ℚ) (hb : 0 ≤ b)
    (d : YearMonth) :
    (mkRow (n : ℚ) r (fun _ => none) b n d).balanceAfter = 0 := by
  simp only [mkRow, Option.getD_none]
  have hm : max ((n : ℚ) - (n : ℚ) + 1) 1 = 1 := by norm_num
  rw [hm]
  have hip : min (b / 1 + b * r) (b * r) = b * r :=
    min_eq_right (by rw [div_one]; linarith)
  rw [hip]
  have hpp0 : max (b / 1 + b * r - b * r) 0 = b := by
    rw [div_one]; rw [add_sub_cancel_right]; exact max_eq_left hb
  rw [hpp0]
  rw [if_neg (lt_irrefl b)]
  simp [sub_self]

theorem go_payoff (r : ℚ) (n : Nat) (hn : n ≤ 1199) (fuel : Nat) :
    ∀ (i : Nat) (b : ℚ) (d : YearMonth), 0 ≤ b → 1 ≤ i → i ≤ n →
      n - i + 1 ≤ fuel →
      ∃ row, (go (n : ℚ) r (fun _ => none) fuel b i d).getLast? = some row ∧
        row.balanceAfter ≤ eps := by
  induction fuel with
  | zero => intro i b d _ _ hin hfuel; omega
  | succ m ih =>
    intro i b d hb hi1 hin hfuel
    have hcond : ((i : ℚ) ≤ (n : ℚ) ∨ b > eps) ∧ i < 1200 :=
      ⟨Or.inl (by exact_mod_cast hin), by omega⟩
    simp only [go, if_pos hcond]
    by_cases hstop : (mkRow (n : ℚ) r (fun _ => none) b i d).balanceAfter ≤ eps
    · rw [if_pos hstop]
      exact ⟨_, rfl, hstop⟩
    · rw [if_neg hstop]
      have hilt : i < n := by
        rcases Nat.lt_or_ge i n with h | h
        · exact h
        · exfalso
          have : i = n := le_antisymm hin h
          subst this
          rw [mkRow_final_month r i b hb d] at hstop
          exact hstop (by rw [eps]; norm_num)
      obtain ⟨row, hlast, hle⟩ :=
        ih (i + 1) (mkRow (n : ℚ) r (fun _ => none) b i d).balanceAfter
          (addMonths d 1) (mkRow_balanceAfter_nonneg _ _ _ _ _ _)
          (by omega) (by omega) (by omega)
      refine ⟨row, ?_, hle⟩
      rcases hrest : go (n : ℚ) r (fun _ => none) m
          (mkRow (n : ℚ) r (fun _ => none) b i d).balanceAfter (i + 1)
          (addMonths d 1) with _ | ⟨x, xs⟩
      · rw [hrest] at hlast
        simp at hlast
      · rw [hrest] at hlast
        rw [List.getLast?_cons_cons]
        exact hlast

/-! ### A perpetual zero override never reduces the balance -/

theorem mkRow_zero_override (i : Nat) (d : YearMonth) :
    (mkRow 1 0 (fun _ => some 0) 1 i d).balanceAfter = 1 := by
  simp only [mkRow, Option.getD_some]
  rw [mul_zero, min_self, sub_self, max_self]
  rw [if_neg (by norm_num)]
  rw [sub_zero]
  exact max_eq_left (by norm_num)

theorem go_zero_override (fuel : Nat) :
    ∀ (i : Nat) (d : YearMonth), 1 ≤ i → i ≤ 1199 → 1200 ≤ fuel + i →
      ∃ row, (go 1 0 (fun _ => some 0) fuel 1 i d).getLast? = some row ∧
        row.balanceAfter = 1 := by
  induction fuel with
  | zero => intro i d _ hi hfuel; omega
  | succ m ih =>
    intro i d hi1 hi hfuel
    have hcond : ((i : ℚ) ≤ 1 ∨ (1 : ℚ) > eps) ∧ i < 1200 :=
      ⟨Or.inr (by rw [eps]; norm_num), by omega⟩
    simp only [go, if_pos hcond]
    rw [if_neg (by rw [mkRow_zero_override i d, eps]; norm_num)]
    rw [mkRow_zero_override i d]
    rcases Nat.lt_or_ge i 1199 with hlt | hge
    · obtain ⟨row, hlast, hbal⟩ :=
        ih (i + 1) (addMonths d 1) (by omega) (by omega) (by omega)
      refine ⟨row, ?_, hbal⟩
      rcases hrest : go 1 0 (fun _ => some 0) m 1 (i + 1) (addMonths d 1)
        with _ | ⟨x, xs⟩
      · rw [hrest] at hlast
        simp at hlast
      · rw [hrest] at hlast
        rw [List.getLast?_cons_cons]
        exact hlast
    · have hi1199 : i = 1199 := by omega
      subst hi1199
      have hstop : go 1 0 (fun _ => some 0) m 1 1200 (addMonths d 1) = [] := by
        rw [go_eq]
        split
        · rfl
        · rw [if_neg (by intro h; exact absurd h.2 (by norm_num))]
      rw [hstop]
      exact ⟨_, rfl, mkRow_zero_override 1199 d⟩

/-! ### Concrete evaluations used by witnesses -/

theorem schedule_ex1_eval :
    calculateSchedule 100 0 2 ⟨2025, 12⟩ (fun _ => none) =
      [⟨1, ⟨2025, 12⟩, 50, 50, 0, 50, 0, 50, 0, 0, 50⟩,
       ⟨2, ⟨2026, 1⟩, 50, 50, 0, 50, 0, 50, 0, 0, 0⟩] := by
  rw [calculateSchedule, if_neg (by norm_num)]
  rw [go_eq]
  norm_num [mkRow, eps, addMonths, max_def, min_def]
  rw [go_eq]
  norm_num [mkRow, eps, addMonths, max_def, min_def, Int.fdiv, Int.emod]

theorem schedule_ex2_eval :
    calculateSchedule 100 0 2 ⟨2025, 12⟩
        (fun i => if i = 1 then some (-5) else none) =
      [⟨1, ⟨2025, 12⟩, 50, 50, 0, -5, -5, 0, 0, 55, 100⟩,
       ⟨2, ⟨2026, 1⟩, 100, 100, 0, 100, 0, 100, 0, 0, 0⟩] := by
  rw [calculateSchedule, if_neg (by norm_num)]
  rw [go_eq]
  norm_num [mkRow, eps, addMonths, max_def, min_def]
  rw [go_eq]
  norm_num [mkRow, eps, addMonths, max_def, min_def, Int.fdiv, Int.emod]

/-! ### Claims -/

/-- Claim C1: for every input (principal, annualRatePercent, termMonths,
startMonth, overrides) accepted by `calculateSchedule`, the
`balanceAfter` values of the returned rows form a non-increasing
sequence, and every row's `balanceAfter` is non-negative. -/
theorem C1_balanceAfter_antitone_nonneg (p r t : ℚ) (d : YearMonth)
    (ov : Nat → Option ℚ) :
    (calculateSchedule p r t d ov).Pairwise
      (fun x y => y.balanceAfter ≤ x.balanceAfter) ∧
    ∀ row ∈ calculateSchedule p r t d ov, 0 ≤ row.balanceAfter := by
  rw [calculateSchedule]
  split
  · simp
  · rename_i h
    push_neg at h
    refine ⟨go_pairwise _ _ _ _ _ _ _ h.1.le, fun row hrow => ?_⟩
    exact (go_mem_balance _ _ _ _ _ _ _ h.1.le row hrow).1

/-- Witness for C1 at a concrete input: the 2-month schedule for
principal 100 at rate 0 with no overrides. -/
theorem C1_witness :
    (calculateSchedule 100 0 2 ⟨2025, 12⟩ (fun _ => none)).Pairwise
      (fun x y => y.balanceAfter ≤ x.balanceAfter) ∧
    (0 : ℚ) ≤
      (⟨1, ⟨2025, 12⟩, 50, 50, 0, 50, 0, 50, 0, 0, 50⟩ : ScheduleRow).balanceAfter :=
  ⟨(C1_balanceAfter_antitone_nonneg 100 0 2 ⟨2025, 12⟩ (fun _ => none)).1,
   (C1_balanceAfter_antitone_nonneg 100 0 2 ⟨2025, 12⟩ (fun _ => none)).2 _
     (by rw [schedule_ex1_eval]; exact List.mem_cons_self _ _)⟩

/-- Claim C3: for every input, `calculateSchedule` terminates (it is a
total function here) and returns at most 1199 rows. -/
theorem C3_length_le_1199 (p r t : ℚ) (d : YearMonth) (ov : Nat → Option ℚ) :
    (calculateSchedule p r t d ov).length ≤ 1199 := by
  rw [calculateSchedule]
  split
  · simp
  · have := go_length t (r / 100 / 12) ov 1200 p 1 d
    omega

/-- Claim C4: for every row of every schedule, `actualPayment` equals
the override for that row's `monthIndex` when present (every
representable override value is finite), and equals the row's
`plannedPayment` otherwise — an absent entry means the planned payment
is used, never a zero payment. -/
theorem C4_actualPayment_override (p r t : ℚ) (d : YearMonth)
    (ov : Nat → Option ℚ) :
    ∀ row ∈ calculateSchedule p r t d ov,
      row.actualPayment = (ov row.monthIndex).getD row.plannedPayment := by
  rw [calculateSchedule]
  split
  · simp
  · rename_i h
    push_neg at h
    refine go_mem_invariant t (r / 100 / 12) ov
      (fun row => row.actualPayment = (ov row.monthIndex).getD row.plannedPayment)
      (fun b i d hb => ?_) 1200 p 1 d h.1.le
    show (mkRow t (r / 100 / 12) ov b i d).actualPayment =
      (ov (mkRow t (r / 100 / 12) ov b i d).monthIndex).getD
        (mkRow t (r / 100 / 12) ov b i d).plannedPayment
    rw [mkRow_monthIndex]
    exact mkRow_actualPayment t (r / 100 / 12) ov b i d

/-- Witness for C4 at a concrete input: month 1 of the 2-month schedule
for principal 100 carries the (finite, negative) override -5. -/
theorem C4_witness :
    (⟨1, ⟨2025, 12⟩, 50, 50, 0, -5, -5, 0, 0, 55, 100⟩ : ScheduleRow).actualPayment =
      ((fun i => if i = 1 then some (-5 : ℚ) else none)
          (⟨1, ⟨2025, 12⟩, 50, 50, 0, -5, -5, 0, 0, 55, 100⟩ : ScheduleRow).monthIndex).getD
        (⟨1, ⟨2025, 12⟩, 50, 50, 0, -5, -5, 0, 0, 55, 100⟩ : ScheduleRow).plannedPayment :=
  C4_actualPayment_override 100 0 2 ⟨2025, 12⟩
    (fun i => if i = 1 then some (-5) else none) _
    (by rw [schedule_ex2_eval]; exact List.mem_cons_self _ _)

/-- Claim C6: for every row of every schedule, `extraPayment` and
`shortfall` are never both nonzero. -/
theorem C6_extra_shortfall_exclusive (p r t : ℚ) (d : YearMonth)
    (ov : Nat → Option ℚ) :
    ∀ row ∈ calculateSchedule p r t d ov,
      ¬(0 < row.extraPayment ∧ 0 < row.shortfall) := by
  rw [calculateSchedule]
  split
  · simp
  · rename_i h
    push_neg at h
    exact go_mem_invariant t (r / 100 / 12) ov
      (fun row => ¬(0 < row.extraPayment ∧ 0 < row.shortfall))
      (fun b i d hb => mkRow_extra_shortfall t (r / 100 / 12) ov b i d)
      1200 p 1 d h.1.le

/-- Witness for C6 at a concrete input: month 1 of the 2-month schedule
for principal 100 with no overrides. -/
theorem C6_witness :
    ¬(0 < (⟨1, ⟨2025, 12⟩, 50, 50, 0, 50, 0, 50, 0, 0, 50⟩ : ScheduleRow).extraPayment ∧
      0 < (⟨1, ⟨2025, 12⟩, 50, 50, 0, 50, 0, 50, 0, 0, 50⟩ : ScheduleRow).shortfall) :=
  C6_extra_shortfall_exclusive 100 0 2 ⟨2025, 12⟩ (fun _ => none) _
    (by rw [schedule_ex1_eval]; exact List.mem_cons_self _ _)

/-- Claim C7: if `principal ≤ 0` or `termMonths ≤ 0`,
`calculateSchedule` returns the empty sequence regardless of the other
parameters — a defined degenerate result, not an error. -/
theorem C7_degenerate_empty (p r t : ℚ) (d : YearMonth)
    (ov : Nat → Option ℚ) (h : p ≤ 0 ∨ t ≤ 0) :
    calculateSchedule p r t d ov = [] := by
  rw [calculateSchedule, if_pos h]

/-- Witness for C7 at a concrete input: zero principal with a nonzero
rate, term, and a nonempty override map still yields the empty
schedule. -/
theorem C7_witness :
    calculateSchedule 0 (3.54 : ℚ) 360 ⟨2025, 12⟩ (fun _ => some 42) = [] :=
  C7_degenerate_empty 0 (3.54 : ℚ) 360 ⟨2025, 12⟩ (fun _ => some 42)
    (Or.inl (by norm_num))

/-- Claim C5: for every row, `principalPaid` is at most the balance
entering that month (the previous row's `balanceAfter`, or the
principal for row 1), and `balanceAfter` equals that entering balance
minus `principalPaid` exactly. -/
theorem C5_principal_balance_exact (p r t : ℚ) (d : YearMonth)
    (ov : Nat → Option ℚ) :
    (∀ row : ScheduleRow, (calculateSchedule p r t d ov)[0]? = some row →
      row.principalPaid ≤ p ∧ row.balanceAfter = p - row.principalPaid) ∧
    (∀ (j : Nat) (prev row : ScheduleRow),
      (calculateSchedule p r t d ov)[j]? = some prev →
      (calculateSchedule p r t d ov)[j + 1]? = some row →
      row.principalPaid ≤ prev.balanceAfter ∧
      row.balanceAfter = prev.balanceAfter - row.principalPaid) := by
  rw [calculateSchedule]
  split
  · constructor
    · intro row h; simp at h
    · intro j prev row h _; simp at h
  · rename_i h
    push_neg at h
    exact go_adjacent t (r / 100 / 12) ov
      (fun b row => row.principalPaid ≤ b ∧ row.balanceAfter = b - row.principalPaid)
      (fun b i d hb => by
        obtain ⟨h1, _, h3⟩ := mkRow_balanceAfter_def t (r / 100 / 12) ov b i d hb
        exact ⟨h1, h3⟩)
      1200 p 1 d h.1.le

/-- Witness for C5 at a concrete input: row 1 of the 2-month schedule
for principal 100 with no overrides. -/
theorem C5_witness :
    (⟨1, ⟨2025, 12⟩, 50, 50, 0, 50, 0, 50, 0, 0, 50⟩ : ScheduleRow).principalPaid ≤ 100 ∧
    (⟨1, ⟨2025, 12⟩, 50, 50, 0, 50, 0, 50, 0, 0, 50⟩ : ScheduleRow).balanceAfter =
      100 - (⟨1, ⟨2025, 12⟩, 50, 50, 0, 50, 0, 50, 0, 0, 50⟩ : ScheduleRow).principalPaid :=
  (C5_principal_balance_exact 100 0 2 ⟨2025, 12⟩ (fun _ => none)).1 _
    (by rw [schedule_ex1_eval]; rfl)

/-- Claim C9: every row except the last has `balanceAfter > eps`; as
soon as a row with `balanceAfter ≤ eps` is appended, the loop breaks. -/
theorem C9_break_at_epsilon (p r t : ℚ) (d : YearMonth)
    (ov : Nat → Option ℚ) :
    ∀ (j : Nat) (row : ScheduleRow),
      j + 1 < (calculateSchedule p r t d ov).length →
      (calculateSchedule p r t d ov)[j]? = some row →
      eps < row.balanceAfter := by
  rw [calculateSchedule]
  split
  · intro j row hlen _; simp at hlen
  · intro j row hlen hget
    exact go_not_last t (r / 100 / 12) ov 1200 p 1 d j row hlen hget

/-- Witness for C9 at a concrete input: row 1 of the 2-row schedule for
principal 100 is not last, and its balance 50 exceeds `eps`. -/
theorem C9_witness :
    eps < (⟨1, ⟨2025, 12⟩, 50, 50, 0, 50, 0, 50, 0, 0, 50⟩ : ScheduleRow).balanceAfter :=
  C9_break_at_epsilon 100 0 2 ⟨2025, 12⟩ (fun _ => none) 0 _
    (by rw [schedule_ex1_eval]; norm_num)
    (by rw [schedule_ex1_eval]; rfl)

theorem mkRow_negative_override (t r : ℚ) (hr : 0 ≤ r) (ov : Nat → Option ℚ)
    (b : ℚ) (hb : 0 ≤ b) (i : Nat) (d : YearMonth) (v : ℚ)
    (hov : ov i = some v) (hv : v < 0) :
    (mkRow t r ov b i d).interestPaid = v ∧
    (mkRow t r ov b i d).principalPaid = 0 ∧
    (mkRow t r ov b i d).extraPayment = 0 ∧
    (mkRow t r ov b i d).balanceAfter = b := by
  simp only [mkRow, hov, Option.getD_some]
  have hpi : 0 ≤ b * r := mul_nonneg hb hr
  have hpp : 0 ≤ b / max (t - (i : ℚ) + 1) 1 :=
    div_nonneg hb (le_trans zero_le_one (le_max_right _ _))
  have hmin : min v (b * r) = v := min_eq_left (by linarith)
  refine ⟨hmin, ?_, ?_, ?_⟩
  · rw [hmin, sub_self, max_self, if_neg (not_lt.mpr hb)]
  · exact max_eq_right (by linarith)
  · rw [hmin, sub_self, max_self, if_neg (not_lt.mpr hb), sub_zero]
    exact max_eq_left hb

/-- Claim C10: for a month whose override is a (finite) negative number,
given `annualRatePercent ≥ 0` (the balance entering the month is
non-negative by the generator's invariant, so `plannedInterest ≥ 0`),
the emitted row has `interestPaid` equal to the negative override,
`principalPaid = 0`, `extraPayment = 0`, and `balanceAfter` equal to
the balance entering the month — a negative payment never increases the
balance. -/
theorem C10_negative_override_row (p r t : ℚ) (d : YearMonth)
    (ov : Nat → Option ℚ) (hr : 0 ≤ r) :
    (∀ (row : ScheduleRow) (v : ℚ),
      (calculateSchedule p r t d ov)[0]? = some row →
      ov row.monthIndex = some v → v < 0 →
      row.interestPaid = v ∧ row.principalPaid = 0 ∧
        row.extraPayment = 0 ∧ row.balanceAfter = p) ∧
    (∀ (j : Nat) (prev row : ScheduleRow) (v : ℚ),
      (calculateSchedule p r t d ov)[j]? = some prev →
      (calculateSchedule p r t d ov)[j + 1]? = some row →
      ov row.monthIndex = some v → v < 0 →
      row.interestPaid = v ∧ row.principalPaid = 0 ∧
        row.extraPayment = 0 ∧ row.balanceAfter = prev.balanceAfter) := by
  rw [calculateSchedule]
  split
  · constructor
    · intro row v h; simp at h
    · intro j prev row v h _; simp at h
  · rename_i h
    push_neg at h
    have hrm : 0 ≤ r / 100 / 12 := by positivity
    have master := go_adjacent t (r / 100 / 12) ov
      (fun b row => ∀ v : ℚ, ov row.monthIndex = some v → v < 0 →
        row.interestPaid = v ∧ row.principalPaid = 0 ∧
          row.extraPayment = 0 ∧ row.balanceAfter = b)
      (fun b i d hb => by
        intro v hov hv
        rw [mkRow_monthIndex] at hov
        exact mkRow_negative_override t (r / 100 / 12) hrm ov b hb i d v hov hv)
      1200 p 1 d h.1.le
    exact ⟨fun row v hget hov hv => master.1 row hget v hov hv,
      fun j prev row v hprev hget hov hv => master.2 j prev row hprev hget v hov hv⟩

/-- Witness for C10 at a concrete input: month 1 of the schedule for
principal 100 carries the override -5; the row reports interestPaid -5,
pays no principal, and leaves the balance at 100. -/
theorem C10_witness :
    (⟨1, ⟨2025, 12⟩, 50, 50, 0, -5, -5, 0, 0, 55, 100⟩ : ScheduleRow).interestPaid = -5 ∧
    (⟨1, ⟨2025, 12⟩, 50, 50, 0, -5, -5, 0, 0, 55, 100⟩ : ScheduleRow).principalPaid = 0 ∧
    (⟨1, ⟨2025, 12⟩, 50, 50, 0, -5, -5, 0, 0, 55, 100⟩ : ScheduleRow).extraPayment = 0 ∧
    (⟨1, ⟨2025, 12⟩, 50, 50, 0, -5, -5, 0, 0, 55, 100⟩ : ScheduleRow).balanceAfter = 100 :=
  (C10_negative_override_row 100 0 2 ⟨2025, 12⟩
      (fun i => if i = 1 then some (-5) else none) (le_refl 0)).1 _ (-5)
    (by rw [schedule_ex2_eval]; rfl)
    (by norm_num)
    (by norm_num)

/-- Claim C8: for principal 315000, annual rate 3.54%, term 360 months
and no overrides, row 1 has plannedInterest 929.25, plannedPrincipal
875, plannedPayment 1804.25, and balanceAfter 314125. -/
theorem C8_first_row_values :
    ((calculateSchedule 315000 (3.54 : ℚ) 360 ⟨2025, 12⟩ (fun _ => none))[0]?).map
      (fun row => (row.plannedInterest, row.plannedPrincipal,
        row.plannedPayment, row.balanceAfter)) =
      some ((929.25 : ℚ), 875, (1804.25 : ℚ), 314125) := by
  rw [calculateSchedule, if_neg (by norm_num)]
  rw [go_eq]
  norm_num [mkRow, eps, max_def, min_def]

/-- Counterexample to claim C2 as stated: principal 1, rate 0, term 1
are valid inputs (principal > 0, rate ≥ 0, term > 0) and every override
is the finite number 0 — yet the loop runs to the 1199-row cap and the
last row's `balanceAfter` is 1, far above `eps = 0.01`. -/
theorem C2_counterexample :
    ((0 : ℚ) < 1 ∧ (0 : ℚ) ≤ 0 ∧ (0 : ℚ) < 1) ∧
    ∃ row, (calculateSchedule 1 0 1 ⟨2025, 12⟩ (fun _ => some 0)).getLast? =
        some row ∧ ¬row.balanceAfter ≤ eps := by
  refine ⟨⟨by norm_num, le_refl 0, by norm_num⟩, ?_⟩
  have hrate : (0 : ℚ) / 100 / 12 = 0 := by norm_num
  rw [calculateSchedule, if_neg (by norm_num), hrate]
  obtain ⟨row, hlast, hbal⟩ :=
    go_zero_override 1200 1 ⟨2025, 12⟩ (le_refl 1) (by norm_num) (by norm_num)
  exact ⟨row, hlast, by rw [hbal, eps]; norm_num⟩

/-- Claim C2 amended: for principal > 0, rate ≥ 0, an integer term with
1 ≤ termMonths ≤ 1199, and an empty override map, the schedule is
non-empty, has at most 1199 rows, and its last row has
`balanceAfter ≤ eps`. -/
theorem C2_amended_payoff (p r : ℚ) (n : Nat) (d : YearMonth)
    (hp : 0 < p) (_hr : 0 ≤ r) (hn1 : 1 ≤ n) (hn : n ≤ 1199) :
    calculateSchedule p r (n : ℚ) d (fun _ => none) ≠ [] ∧
    (calculateSchedule p r (n : ℚ) d (fun _ => none)).length ≤ 1199 ∧
    ∃ row, (calculateSchedule p r (n : ℚ) d (fun _ => none)).getLast? =
        some row ∧ row.balanceAfter ≤ eps := by
  have hguard : ¬(p ≤ 0 ∨ (n : ℚ) ≤ 0) := by
    push_neg
    refine ⟨hp, ?_⟩
    have : (0 : ℚ) < (1 : Nat) := by norm_num
    calc (0 : ℚ) < ((1 : Nat) : ℚ) := this
      _ ≤ (n : ℚ) := by exact_mod_cast hn1
  rw [calculateSchedule, if_neg hguard]
  obtain ⟨row, hlast, hbal⟩ :=
    go_payoff (r / 100 / 12) n hn 1200 1 p d hp.le (le_refl 1) hn1 (by omega)
  refine ⟨?_, ?_, row, hlast, hbal⟩
  · intro hemp
    rw [hemp] at hlast
    simp at hlast
  · have := go_length (n : ℚ) (r / 100 / 12) (fun _ => none) 1200 p 1 d
    omega

/-- Witness for the amended C2 at a concrete input: principal 100,
rate 0, term 2 months, no overrides. -/
theorem C2_witness :
    calculateSchedule 100 0 ((2 : Nat) : ℚ) ⟨2025, 12⟩ (fun _ => none) ≠ [] ∧
    (calculateSchedule 100 0 ((2 : Nat) : ℚ) ⟨2025, 12⟩ (fun _ => none)).length ≤ 1199 ∧
    ∃ row, (calculateSchedule 100 0 ((2 : Nat) : ℚ) ⟨2025, 12⟩
        (fun _ => none)).getLast? = some row ∧ row.balanceAfter ≤ eps :=
  C2_amended_payoff 100 0 2 ⟨2025, 12⟩ (by norm_num) (le_refl 0)
    (by norm_num) (by norm_num)
